import Mathlib

/-!
Shallow embedding of `tools/list_builder.py`: the mirror-cache management
(`git_repo_age`, `refresh_cache`, `init_cache`, `refresh_all_caches`) and the
catalog build (`build_app_dict`, `build_catalog`), together with proofs about
the claims of the specification.

Filesystem and git effects are modelled explicitly: the mtime of
`.git/FETCH_HEAD` becomes a `CacheState` field, the outcome of the
repoint/checkout/fetch/reset sequence becomes a `SeqOutcome` parameter, and a
mirror's git history becomes a list of `Commit` records in the order
`git rev-list` emits them (newest first).
-/

namespace ListBuilder

/-- State of one app's on-disk cache that `git_repo_age` inspects:
the mtime of `.git/FETCH_HEAD`, or `none` when that file does not exist. -/
structure CacheState where
  fetchHead : Option Int
deriving DecidableEq, Repr

/-- `git_repo_age(path)`: `int(time.time() - fetch_head.stat().st_mtime)` when
`FETCH_HEAD` exists, `False` (here `none`) otherwise.  `now` is the value of
`time.time()` at the call. -/
def git_repo_age (st : CacheState) (now : Int) : Option Int :=
  st.fetchHead.map (fun m => now - m)

/-- Outcome of the git sequence in `refresh_cache` (remote repoint, branch
switch, fetch, hard reset): either it succeeds leaving the cache in state
`st'`, or it raises `err` leaving the cache in state `st'` (a failing sequence
may still have touched `FETCH_HEAD`, so the post-failure state is explicit). -/
inductive SeqOutcome where
  | success (st' : CacheState)
  | failure (err : String) (st' : CacheState)
deriving DecidableEq, Repr

instance {ε α : Type} [DecidableEq ε] [DecidableEq α] : DecidableEq (Except ε α)
  | .ok a, .ok b =>
    if h : a = b then .isTrue (by rw [h]) else .isFalse (fun hc => h (Except.ok.inj hc))
  | .error e, .error f =>
    if h : e = f then .isTrue (by rw [h]) else .isFalse (fun hc => h (Except.error.inj hc))
  | .ok _, .error _ => .isFalse (fun hc => Except.noConfusion hc)
  | .error _, .ok _ => .isFalse (fun hc => Except.noConfusion hc)

/-- Result of `refresh_cache`: the exception behaviour (`.error` = the call
raises) together with whether any network I/O (fetch) was performed. -/
structure RefreshResult where
  result : Except String CacheState
  network : Bool
deriving DecidableEq, Repr

/-- The `try`/`except` body of `refresh_cache`: run the git sequence; on
failure re-read the repo age (at time `now2`) and swallow the exception iff
the age is known and below 24 hours. -/
def refreshSeq (now2 : Int) : SeqOutcome → RefreshResult
  | .success st' => ⟨.ok st', true⟩
  | .failure err st' =>
    match git_repo_age st' now2 with
    | some age => if age < 24 * 3600 then ⟨.ok st', true⟩ else ⟨.error err, true⟩
    | none => ⟨.error err, true⟩

/-- `refresh_cache(app, infos)`.  `now1` is `time.time()` at the initial
freshness check, `now2` at the re-check inside the exception handler.
If the age is known and below one hour the function returns at once without
touching the network; otherwise the git sequence runs. -/
def refresh_cache (st : CacheState) (now1 now2 : Int) (seq : SeqOutcome) :
    RefreshResult :=
  match git_repo_age st now1 with
  | some age => if age < 3600 then ⟨.ok st, false⟩ else refreshSeq now2 seq
  | none => refreshSeq now2 seq

/-! ## Mirror history model -/

/-- One commit of a mirrored repository.  `paths` are the paths the commit
touches; `first_parent` says whether the commit lies on the first-parent
chain of the checked-out branch; `diff_matches_cinny` says whether
`git log -G "cinny"` selects the commit (its diff has an added or removed
line matching that fixed literal pattern). -/
structure Commit where
  hexsha : String
  authored_date : Int
  committed_date : Int
  paths : List String
  first_parent : Bool
  diff_matches_cinny : Bool
deriving DecidableEq, Repr

/-- A mirror's git history across all refs, in the order `git rev-list`
emits it: newest commit first. -/
structure Mirror where
  history : List Commit
deriving DecidableEq, Repr

/-- The `relevant_files` pathspecs of `build_app_dict` that name a single
file. -/
def relevant_file_names : List String :=
  ["manifest.json", "manifest.toml", "config_panel.toml"]

/-- The `relevant_files` pathspecs of `build_app_dict` that name a
directory. -/
def relevant_dir_names : List String :=
  ["hooks/", "scripts/", "conf/", "sources/"]

/-- Whether a path matches one of the `relevant_files` pathspecs
(`manifest.json`, `manifest.toml`, `config_panel.toml`, `hooks/`, `scripts/`,
`conf/`, `sources/`): exact match for file pathspecs, prefix match for
directory pathspecs. -/
def isRelevantPath (p : String) : Bool :=
  relevant_file_names.contains p
    || relevant_dir_names.any (fun d => d.data.isPrefixOf p.data)

/-- Whether `repo.iter_commits(paths=relevant_files, full_history=True,
all=True)` yields the commit: it touches at least one relevant path. -/
def touchesRelevant (c : Commit) : Bool :=
  c.paths.any isRelevantPath

/-- Whether the `git log -G "cinny" --first-parent -- apps.json apps.toml`
invocation of `build_app_dict` selects the commit. -/
def inCatalogLog (c : Commit) : Bool :=
  c.first_parent && c.diff_matches_cinny
    && c.paths.any (fun p => p == "apps.json" || p == "apps.toml")

/-- The list of committer dates (`--date=unix --format=%cd`) printed by that
`git log` call: selected commits, oldest first because of `--reverse`
(`history` is newest-first, hence the `reverse`). -/
def catalog_log_timestamps (m : Mirror) : List Int :=
  ((m.history.filter inCatalogLog).reverse).map (fun c => c.committed_date)

/-- `int(output.split("\n")[0])`: the first line of the log output parsed as
an integer.  When no commit is selected the output is empty and `int("")`
raises `ValueError`, modelled by `none`. -/
def added_in_catalog (m : Mirror) : Option Int :=
  (catalog_log_timestamps m).head?

/-- Revision resolution of `build_app_dict`: for the symbolic `"HEAD"`
marker, the first commit yielded by `iter_commits` over the relevant paths
(`next(relevant_commits)`, raising `StopIteration` when there is none); for
an explicit pin, `repo.commit(revision)` must find the commit in history,
else `RuntimeError("Revision ain't in history ...")` is raised. -/
def resolve_revision (m : Mirror) (rev : String) : Except String String :=
  if rev = "HEAD" then
    match (m.history.filter touchesRelevant).head? with
    | some c => .ok c.hexsha
    | none => .error "StopIteration"
  else
    match m.history.find? (fun c => c.hexsha = rev) with
    | some _ => .ok rev
    | none => .error "Revision aint in history"

/-! ## Manifests and registry descriptors -/

/-- A package manifest as read from `manifest.toml` / `manifest.json`.
`packaging_format` is the numeric value after
`float(str(manifest.get("packaging_format", "")).strip() or "0")` (absent
modelled as `none`, treated as `0`); `antifeatures` are the keys of the
manifest's antifeatures table; `install` and `resources` are the two
sub-sections later stripped for the v3 catalog, kept abstract as opaque
payloads. -/
structure Manifest where
  id : String
  name : String
  description : String
  packaging_format : Option ℚ
  antifeatures : List String
  install : Option String
  resources : Option String
deriving DecidableEq, Repr

/-- A registry descriptor: one entry of `apps.toml`.  Optional fields model
`infos.get(...)` defaults; `level` is `none` when absent or not an integer
(the code then substitutes `"?"` in the app dict and `-1` in the doc
projection). -/
structure AppInfos where
  url : String
  branch : Option String
  revision : Option String
  state : String
  level : Option Int
  antifeatures : List String
  category : Option String
  subtags : List String
  high_quality : Bool
  featured : Bool
  potential_alternative_to : List String
deriving DecidableEq, Repr

/-- All fields of the dict returned by `build_app_dict` except the merged
`antifeatures` list (split off because that list's order comes from a Python
`set` and is the one run-dependent part of the record). -/
structure AppCore where
  id : String
  git_branch : String
  git_revision : String
  git_url : String
  added_in_catalog : Int
  lastUpdate : Int
  manifest : Manifest
  state : String
  level : Option Int
  maintained : Bool
  high_quality : Bool
  featured : Bool
  category : Option String
  subtags : List String
  potential_alternative_to : List String
deriving DecidableEq, Repr

/-- The dict returned by `build_app_dict`. -/
structure AppDict extends AppCore where
  antifeatures : List String
deriving DecidableEq, Repr

/-- Per-app inputs of `build_app_dict`: whether the cache folder exists, the
mirror's history, and the manifest files present in the mirror's working
tree (`manifest.toml` taking precedence over `manifest.json`). -/
structure BuildEnv where
  cache_exists : Bool
  mirror : Mirror
  manifest_toml : Option Manifest
  manifest_json : Option Manifest
deriving DecidableEq, Repr

/-- `build_app_dict(app, infos)`.  `setOrder` models the iteration order of
the Python `set` in `list(set(manifest antifeatures + registry
antifeatures))`: it depends on the interpreter's per-process string-hash
seed, so it is an explicit parameter of the run.  `.error` models the call
raising (caught per package by `build_catalog`). -/
def build_app_dict (infos : AppInfos) (env : BuildEnv)
    (setOrder : List String → List String) : Except String AppDict :=
  if env.cache_exists then
    match added_in_catalog env.mirror with
    | none => .error "invalid literal for int()"
    | some added =>
      match resolve_revision env.mirror (infos.revision.getD "HEAD") with
      | .error e => .error e
      | .ok rev =>
        match env.mirror.history.find? (fun c => c.hexsha = rev) with
        | none => .error "BadName"
        | some c =>
          match env.manifest_toml <|> env.manifest_json with
          | none => .error "manifest file not found"
          | some manifest =>
            .ok { id := manifest.id
                  git_branch := infos.branch.getD "master"
                  git_revision := rev
                  git_url := infos.url
                  added_in_catalog := added
                  lastUpdate := c.committed_date
                  manifest := manifest
                  state := infos.state
                  level := infos.level
                  maintained := !(infos.antifeatures.contains "package-not-maintained")
                  high_quality := infos.high_quality
                  featured := infos.featured
                  category := infos.category
                  subtags := infos.subtags
                  potential_alternative_to := infos.potential_alternative_to
                  antifeatures := setOrder (manifest.antifeatures ++ infos.antifeatures) }
  else .error "No cache yet"

/-- `app.lower()`: lower-casing, written as the character-wise map so that
it evaluates by kernel reduction. -/
def lower (s : String) : String := ⟨s.data.map Char.toLower⟩

/-! ## Catalog loading and the cache-refresh batch loop -/

/-- Loading `apps.toml`: keep only the entries whose state is not
`"notworking"`.  The registry is modelled as an association list in the
order `sorted(catalog.items())` later iterates it. -/
def loadCatalog (raw : List (String × AppInfos)) : List (String × AppInfos) :=
  raw.filter (fun p => p.2.state ≠ "notworking")

/-- The `git_depths` table of `init_cache`. -/
def git_depths : List (String × Nat) :=
  [("notworking", 5), ("inprogress", 20), ("default", 40)]

/-- `git_depths.get(infos["state"], git_depths["default"])`. -/
def lookupDepth (state : String) : Nat :=
  (git_depths.lookup state).getD 40

/-- Per-app environment of the cache-refresh batch loop: whether the cache
folder already exists, whether the clone would succeed, and the inputs of
`refresh_cache` (initial state, the two `time.time()` readings, the git
sequence outcome). -/
structure AppCacheEnv where
  cache_exists : Bool
  init_ok : Bool
  st : CacheState
  now1 : Int
  now2 : Int
  seq : SeqOutcome

/-- Observable outcome of `refresh_all_caches`: the clones attempted (app
name and fetch depth), the apps whose cache was submitted to
`refresh_cache`, and whether the loop ran to completion or re-raised a
refresh failure.  A clone failure is caught (`error(...)` only) and the loop
continues; a `refresh_cache` failure is reported and then re-raised
(`raise e`), which aborts the loop. -/
structure CacheRunResult where
  clones : List (String × Nat)
  refreshes : List String
  outcome : Except String Unit
deriving DecidableEq, Repr

/-- `refresh_all_caches()`, iterating the (already sorted) catalog. -/
def refresh_all_caches (cenv : String → AppCacheEnv) :
    List (String × AppInfos) → CacheRunResult
  | [] => ⟨[], [], .ok ()⟩
  | (app, infos) :: rest =>
    let a := lower app
    let e := cenv a
    if e.cache_exists then
      match (refresh_cache e.st e.now1 e.now2 e.seq).result with
      | .ok _ =>
        let r := refresh_all_caches cenv rest
        ⟨r.clones, a :: r.refreshes, r.outcome⟩
      | .error err => ⟨[], [a], .error err⟩
    else
      let r := refresh_all_caches cenv rest
      ⟨(a, lookupDepth infos.state) :: r.clones, r.refreshes, r.outcome⟩

/-! ## The catalog build -/

/-- Python dict assignment `d[k] = v` on an association list: replace the
binding if the key is present, else append. -/
def dictInsert {α : Type} (k : String) (v : α) :
    List (String × α) → List (String × α)
  | [] => [(k, v)]
  | (k', v') :: rest =>
    if k' = k then (k, v) :: rest else (k', v') :: dictInsert k v rest

/-- The first loop of `build_catalog`: build each app's dict, skipping (with
an error report) any app whose `build_app_dict` raises, and store the result
under the key `app_dict["id"]`. -/
def build_result_aux (benv : String → BuildEnv)
    (setOrder : List String → List String) :
    List (String × AppInfos) → List (String × AppDict) →
    List (String × AppDict)
  | [], acc => acc
  | (app, infos) :: rest, acc =>
    match build_app_dict infos (benv (lower app)) setOrder with
    | .error _ => build_result_aux benv setOrder rest acc
    | .ok d => build_result_aux benv setOrder rest (dictInsert d.id d acc)

/-- `result_dict` after the first loop of `build_catalog`. -/
def build_result_dict (catalog : List (String × AppInfos))
    (benv : String → BuildEnv) (setOrder : List String → List String) :
    List (String × AppDict) :=
  build_result_aux benv setOrder catalog []

/-- `float(str(manifest.get("packaging_format", "")).strip() or "0")`. -/
def pfEff (m : Manifest) : ℚ :=
  m.packaging_format.getD 0

/-- Deletion of the `install` and `resources` manifest sub-sections for the
v3 catalog. -/
def stripIR (m : Manifest) : Manifest :=
  { m with install := none, resources := none }

/-- One entry of the v3 catalog: the app dict (with converted/stripped
manifest) plus the `logo_hash` key added by the logo loop. -/
structure V3Entry where
  dict : AppDict
  logo_hash : Option String
deriving DecidableEq, Repr

/-- The fields of a doc-catalog entry except the antifeatures list (split
off for the same reason as in `AppCore`). -/
structure DocCore where
  id : String
  category : Option String
  url : String
  name : String
  description : String
  state : String
  level : Int
  broken : Bool
  good_quality : Bool
  bad_quality : Bool
  potential_alternative_to : List String
deriving DecidableEq, Repr

/-- One entry of the doc catalog (`infos_for_doc_catalog`). -/
structure DocEntry extends DocCore where
  antifeatures : List String
deriving DecidableEq, Repr

/-- `infos_for_doc_catalog(infos)`. -/
def infos_for_doc_catalog (d : AppDict) : DocEntry :=
  let level := d.level.getD (-1)
  { id := d.id
    category := d.category
    url := d.git_url
    name := d.manifest.name
    description := d.manifest.description
    state := d.state
    level := level
    broken := level ≤ 0
    good_quality := level ≥ 8
    bad_quality := level ≤ 5
    potential_alternative_to := d.potential_alternative_to
    antifeatures := d.antifeatures }

/-- The three output documents of `build_catalog` (their `apps` mappings;
the serialized JSON adds the shared category/antifeature taxonomies and
sorts keys, identically for every run over the same inputs). -/
structure Outputs where
  v2 : List (String × AppDict)
  v3 : List (String × V3Entry)
  doc : List (String × DocEntry)
deriving DecidableEq

/-- `build_catalog()`.  `conv` is the external
`convert_v1_manifest_to_v2_for_catalog` collaborator (not part of this file's
sources; per the spec it is a pure `ManifestV1 -> ManifestV2` function, kept
abstract).  `logo` maps an app id to the content hash of `logos/<id>.png`
when that file exists. -/
def build_catalog (catalog : List (String × AppInfos))
    (benv : String → BuildEnv) (setOrder : List String → List String)
    (conv : Manifest → Manifest) (logo : String → Option String) : Outputs :=
  let result := build_result_dict catalog benv setOrder
  let v2 := result.filter (fun p => pfEff p.2.manifest < 2)
  let v3 := result.map (fun p =>
    let m1 := if pfEff p.2.manifest < 2 then conv p.2.manifest else p.2.manifest
    (p.1, V3Entry.mk { p.2 with manifest := stripIR m1 } (logo (lower p.1))))
  let doc := (result.filter (fun p => p.2.state = "working")).map
    (fun p => (p.1, infos_for_doc_catalog p.2))
  ⟨v2, v3, doc⟩

/-- The `__main__` entry point: `refresh_all_caches()` then
`build_catalog()`.  An exception escaping `refresh_all_caches` aborts the
run before any output is produced. -/
def main (raw : List (String × AppInfos)) (cenv : String → AppCacheEnv)
    (benv : String → BuildEnv) (setOrder : List String → List String)
    (conv : Manifest → Manifest) (logo : String → Option String) :
    Except String Outputs :=
  let cat := loadCatalog raw
  match (refresh_all_caches cenv cat).outcome with
  | .error e => .error e
  | .ok _ => .ok (build_catalog cat benv setOrder conv logo)

/-! ## Concrete fixtures used by witnesses and counterexamples -/

/-- A registry descriptor with no optional fields beyond a level. -/
def cInfos : AppInfos :=
  { url := "u", branch := none, revision := none, state := "working"
    level := some 7, antifeatures := [], category := none, subtags := []
    high_quality := false, featured := false, potential_alternative_to := [] }

/-- Newest commit, touching `scripts/` (meaningful), authored 100 /
committed 200. -/
def cScripts : Commit := ⟨"aaa", 100, 200, ["scripts/x"], true, false⟩

/-- Older commit also touching `scripts/`. -/
def cOldScripts : Commit := ⟨"bbb", 40, 50, ["scripts/y"], true, false⟩

/-- Oldest commit: the one `git log -G "cinny" -- apps.json apps.toml`
selects. -/
def cCatalog : Commit := ⟨"ccc", 10, 20, ["apps.json"], true, true⟩

/-- A mirror history, newest first. -/
def cMirror : Mirror := ⟨[cScripts, cOldScripts, cCatalog]⟩

/-- A v1 manifest (`packaging_format = 1.5`) with two declared
antifeatures. -/
def cManifest : Manifest :=
  ⟨"app1", "App One", "d", some ⟨3, 2, by decide, by decide⟩, ["x", "y"],
    some "i", some "r"⟩

/-- Build environment over `cMirror` with a `manifest.toml` present. -/
def cBuildEnv : BuildEnv := ⟨true, cMirror, some cManifest, none⟩

/-- The app dict `build_app_dict cInfos cBuildEnv List.dedup` produces. -/
def cDict : AppDict :=
  { id := "app1", git_branch := "master", git_revision := "aaa"
    git_url := "u", added_in_catalog := 20, lastUpdate := 200
    manifest := cManifest, state := "working", level := some 7
    maintained := true, high_quality := false, featured := false
    category := none, subtags := [], potential_alternative_to := []
    antifeatures := ["x", "y"] }

/-! ## C1: the 24-hour grace window of `refresh_cache` -/

/-- C1.  For a package whose mirror already exists, when the refresh git
sequence raises: if the mirror's last successful fetch (the `FETCH_HEAD`
mtime re-read in the handler) is less than 24 hours old, `refresh_cache`
returns normally; if it is 24 hours old or more, or unknown (`FETCH_HEAD`
missing), the failure is propagated to the caller.  The hypothesis `hrun`
states that the initial one-hour freshness check did not short-circuit the
call, i.e. the sequence actually ran. -/
theorem refresh_cache_grace_window (st st' : CacheState) (now1 now2 : Int)
    (err : String)
    (hrun : st.fetchHead = none ∨ ∀ m, st.fetchHead = some m → 3600 ≤ now1 - m) :
    ((∃ m, st'.fetchHead = some m ∧ now2 - m < 24 * 3600) →
      refresh_cache st now1 now2 (.failure err st') = ⟨.ok st', true⟩)
    ∧ ((st'.fetchHead = none ∨ ∃ m, st'.fetchHead = some m ∧ 24 * 3600 ≤ now2 - m) →
      refresh_cache st now1 now2 (.failure err st') = ⟨.error err, true⟩) := by
  have hseq : refresh_cache st now1 now2 (.failure err st')
      = refreshSeq now2 (.failure err st') := by
    unfold refresh_cache
    cases hm : st.fetchHead with
    | none => simp [git_repo_age, hm]
    | some m =>
      rcases hrun with h | h
      · rw [hm] at h; cases h
      · have hge := h m hm
        simp [git_repo_age, hm, not_lt.mpr hge]
  rw [hseq]
  constructor
  · rintro ⟨m, hm, hlt⟩
    simp [refreshSeq, git_repo_age, hm, show now2 - m < 86400 by linarith]
  · rintro (hm | ⟨m, hm, hge⟩)
    · simp [refreshSeq, git_repo_age, hm]
    · simp [refreshSeq, git_repo_age, hm,
        not_lt.mpr (show (86400 : Int) ≤ now2 - m by linarith)]

/-- Witness for C1 at a concrete input: `FETCH_HEAD` missing on entry (so
the sequence runs), post-failure mtime 0, handler time 5000 (age below 24h,
tolerated). -/
theorem refresh_cache_grace_window_witness :
    ((∃ m, (CacheState.mk (some 0)).fetchHead = some m ∧ (5000 : Int) - m < 24 * 3600) →
      refresh_cache ⟨none⟩ 5000 5000 (.failure "boom" ⟨some 0⟩) = ⟨.ok ⟨some 0⟩, true⟩)
    ∧ (((CacheState.mk (some 0)).fetchHead = none
        ∨ ∃ m, (CacheState.mk (some 0)).fetchHead = some m ∧ 24 * 3600 ≤ (5000 : Int) - m) →
      refresh_cache ⟨none⟩ 5000 5000 (.failure "boom" ⟨some 0⟩) = ⟨.error "boom", true⟩) :=
  refresh_cache_grace_window ⟨none⟩ ⟨some 0⟩ 5000 5000 "boom" (Or.inl rfl)

/-! ## C5: the one-hour freshness throttle -/

/-- C5.  After a first `refresh_cache` call returns normally leaving the
cache in state `st1`, a second call whose age check sees a last successful
fetch less than 3600 seconds old is a no-op: it returns the state unchanged
and performs no network I/O, so the two calls together fetch at most once. -/
theorem refresh_cache_throttle (st st1 : CacheState)
    (now1 now1' t2 t2' m : Int) (seq1 seq2 : SeqOutcome)
    (h1 : (refresh_cache st now1 now1' seq1).result = .ok st1)
    (hm : st1.fetchHead = some m) (hfresh : t2 - m < 3600) :
    refresh_cache st1 t2 t2' seq2 = ⟨.ok st1, false⟩
    ∧ (cond (refresh_cache st now1 now1' seq1).network 1 0)
      + (cond (refresh_cache st1 t2 t2' seq2).network 1 0) ≤ 1 := by
  have h2 : refresh_cache st1 t2 t2' seq2 = ⟨.ok st1, false⟩ := by
    unfold refresh_cache
    simp [git_repo_age, hm, hfresh]
  refine ⟨h2, ?_⟩
  rw [h2]
  cases (refresh_cache st now1 now1' seq1).network <;> simp

/-- Witness for C5: first call at time 100 on a cache fetched at time 0 is
itself throttled; a second call at time 200 sees age 200 and is a no-op. -/
theorem refresh_cache_throttle_witness :
    refresh_cache ⟨some 0⟩ 200 200 (.success ⟨some 0⟩) = ⟨.ok ⟨some 0⟩, false⟩
    ∧ (cond (refresh_cache ⟨some 0⟩ 100 100 (.success ⟨some 0⟩)).network 1 0)
      + (cond (refresh_cache ⟨some 0⟩ 200 200 (.success ⟨some 0⟩)).network 1 0) ≤ 1 :=
  refresh_cache_throttle ⟨some 0⟩ ⟨some 0⟩ 100 100 200 200 0
    (.success ⟨some 0⟩) (.success ⟨some 0⟩) (by decide) rfl (by decide)

/-! ## C3: resolution of the symbolic "latest" revision -/

/-- C3.  For a package whose revision marker is the symbolic `"HEAD"`
("latest") value, the resolved revision is a commit of the mirror's history
(across all branches) that touches at least one path of the fixed
meaningful-path set, and no commit with a more recent committer date among
those touching such paths exists anywhere in that history.  `hsorted` is
git's output order: `rev-list` emits commits newest first. -/
theorem resolve_latest_most_recent (m : Mirror) (r : String)
    (hsorted : m.history.Pairwise
      (fun a b => b.committed_date ≤ a.committed_date))
    (hok : resolve_revision m "HEAD" = .ok r) :
    ∃ c ∈ m.history, c.hexsha = r ∧ touchesRelevant c = true ∧
      ∀ c' ∈ m.history, touchesRelevant c' = true →
        c'.committed_date ≤ c.committed_date := by
  rw [resolve_revision, if_pos rfl] at hok
  cases hl : m.history.filter touchesRelevant with
  | nil => rw [hl] at hok; cases hok
  | cons c t =>
    rw [hl] at hok
    simp only [List.head?] at hok
    have hr : c.hexsha = r := Except.ok.inj hok
    have hcmem : c ∈ m.history.filter touchesRelevant := by
      rw [hl]; exact List.mem_cons_self c t
    have hpair : (m.history.filter touchesRelevant).Pairwise
        (fun a b => b.committed_date ≤ a.committed_date) :=
      hsorted.sublist (List.filter_sublist m.history)
    rw [hl, List.pairwise_cons] at hpair
    refine ⟨c, (List.mem_filter.mp hcmem).1, hr, (List.mem_filter.mp hcmem).2, ?_⟩
    intro c' hc' ht'
    have : c' ∈ m.history.filter touchesRelevant :=
      List.mem_filter.mpr ⟨hc', ht'⟩
    rw [hl] at this
    rcases List.mem_cons.mp this with rfl | hin
    · exact le_refl _
    · exact hpair.1 c' hin

/-- Witness for C3 on `cMirror`: the resolved latest revision is `"aaa"`,
the newest commit touching `scripts/`. -/
theorem resolve_latest_most_recent_witness :
    ∃ c ∈ cMirror.history, c.hexsha = "aaa" ∧ touchesRelevant c = true ∧
      ∀ c' ∈ cMirror.history, touchesRelevant c' = true →
        c'.committed_date ≤ c.committed_date :=
  resolve_latest_most_recent cMirror "aaa" (by decide) (by decide)

/-! ## C4: resolution of an explicit revision pin -/

/-- C4.  For a package with an explicit revision pin (any value other than
`"HEAD"`), revision resolution returns exactly the pinned commit when it
exists in the mirror's history, raises a revision-not-found error when it
does not, and never substitutes a different commit. -/
theorem resolve_pin_exact (m : Mirror) (rev : String) (hpin : rev ≠ "HEAD") :
    ((∃ c ∈ m.history, c.hexsha = rev) → resolve_revision m rev = .ok rev)
    ∧ ((∀ c ∈ m.history, c.hexsha ≠ rev) →
        resolve_revision m rev = .error "Revision aint in history")
    ∧ (∀ r, resolve_revision m rev = .ok r → r = rev) := by
  have hbody : resolve_revision m rev
      = (match m.history.find? (fun c => c.hexsha = rev) with
         | some _ => .ok rev
         | none => .error "Revision aint in history") := by
    rw [resolve_revision, if_neg hpin]
  refine ⟨?_, ?_, ?_⟩
  · rintro ⟨c, hc, hsha⟩
    rw [hbody]
    cases hf : m.history.find? (fun c => c.hexsha = rev) with
    | some _ => rfl
    | none =>
      rw [List.find?_eq_none] at hf
      exact absurd (by simp [hsha]) (hf c hc)
  · intro hnone
    rw [hbody]
    cases hf : m.history.find? (fun c => c.hexsha = rev) with
    | some c =>
      have hp := List.find?_some hf
      have hcmem := List.mem_of_find?_eq_some hf
      exact absurd (of_decide_eq_true hp) (hnone c hcmem)
    | none => rfl
  · intro r hr
    rw [hbody] at hr
    cases hf : m.history.find? (fun c => c.hexsha = rev) with
    | some _ => rw [hf] at hr; exact (Except.ok.inj hr).symm
    | none => rw [hf] at hr; cases hr

/-- Witness for C4 on `cMirror` with pin `"bbb"` (present in history). -/
theorem resolve_pin_exact_witness :
    ((∃ c ∈ cMirror.history, c.hexsha = "bbb") →
      resolve_revision cMirror "bbb" = .ok "bbb")
    ∧ ((∀ c ∈ cMirror.history, c.hexsha ≠ "bbb") →
        resolve_revision cMirror "bbb" = .error "Revision aint in history")
    ∧ (∀ r, resolve_revision cMirror "bbb" = .ok r → r = "bbb") :=
  resolve_pin_exact cMirror "bbb" (by decide)

/-! ## C8: the lastUpdate timestamp -/

/-- C8 (amended).  For every successfully built catalog entry, the
`lastUpdate` timestamp equals the *committer* date (`committed_date`) of the
resolved revision's commit — not its authored date, which the code never
reads. -/
theorem lastUpdate_is_committer_date (infos : AppInfos) (env : BuildEnv)
    (so : List String → List String) (d : AppDict)
    (h : build_app_dict infos env so = .ok d) :
    ∃ c ∈ env.mirror.history, c.hexsha = d.git_revision ∧
      d.lastUpdate = c.committed_date := by
  unfold build_app_dict at h
  split at h
  case isFalse => exact Except.noConfusion h
  case isTrue =>
    split at h
    next => exact Except.noConfusion h
    next added hadd =>
      split at h
      next e hres => exact Except.noConfusion h
      next rev hres =>
        split at h
        next hfind => exact Except.noConfusion h
        next c hfind =>
          split at h
          next hman => exact Except.noConfusion h
          next manifest hman =>
            have hp := List.find?_some hfind
            have hrev : c.hexsha = rev := of_decide_eq_true hp
            have hd := Except.ok.inj h
            subst hd
            exact ⟨c, List.mem_of_find?_eq_some hfind, hrev, rfl⟩

/-- Witness for C8's amended theorem on the concrete fixtures: the entry
built over `cMirror` resolves `"aaa"` and stores its committer date. -/
theorem lastUpdate_is_committer_date_witness :
    ∃ c ∈ cBuildEnv.mirror.history,
      c.hexsha = (cDict : AppDict).git_revision ∧
        (cDict : AppDict).lastUpdate = c.committed_date :=
  lastUpdate_is_committer_date cInfos cBuildEnv List.dedup cDict (by decide)

/-- Counterexample to C8 as stated: over `cMirror` the resolved revision is
`"aaa"`, whose authored date is 100, yet the entry's `lastUpdate` is 200
(the committer date). -/
theorem lastUpdate_not_authored_date :
    (build_app_dict cInfos cBuildEnv List.dedup).map
      (fun d => (d.git_revision, d.lastUpdate)) = .ok ("aaa", 200)
    ∧ cScripts.hexsha = "aaa" ∧ cScripts.authored_date = 100
    ∧ (200 : Int) ≠ 100 := by decide

/-! ## C10: the added_in_catalog timestamp -/

/-- C10.  The first-catalog-inclusion timestamp is the committer date of the
oldest first-parent commit of the package's own mirror whose diff matches
the fixed literal pattern `"cinny"` and that touches `apps.json` or
`apps.toml`; when no such commit exists, `int("")` raises and the package's
entry build fails, which excludes the package from every projection of that
run (the batch loop skips it). -/
theorem added_in_catalog_oldest_cinny (env : BuildEnv) (infos : AppInfos)
    (so : List String → List String)
    (hsorted : env.mirror.history.Pairwise
      (fun a b => b.committed_date ≤ a.committed_date))
    (hce : env.cache_exists = true) :
    (∀ ts, added_in_catalog env.mirror = some ts →
      ∃ c ∈ env.mirror.history, inCatalogLog c = true ∧ ts = c.committed_date ∧
        ∀ c' ∈ env.mirror.history, inCatalogLog c' = true →
          c.committed_date ≤ c'.committed_date)
    ∧ ((∀ c ∈ env.mirror.history, inCatalogLog c = false) →
        build_app_dict infos env so = .error "invalid literal for int()")
    ∧ (∀ app rest benv, benv (lower app) = env →
        (∀ c ∈ env.mirror.history, inCatalogLog c = false) →
        build_result_dict ((app, infos) :: rest) benv so
          = build_result_dict rest benv so) := by
  have hnone : (∀ c ∈ env.mirror.history, inCatalogLog c = false) →
      added_in_catalog env.mirror = none := by
    intro hall
    have : env.mirror.history.filter inCatalogLog = [] := by
      rw [List.filter_eq_nil_iff]
      intro c hc
      rw [hall c hc]
      exact Bool.false_ne_true
    simp [added_in_catalog, catalog_log_timestamps, this]
  refine ⟨?_, ?_, ?_⟩
  · intro ts hts
    unfold added_in_catalog catalog_log_timestamps at hts
    rw [List.head?_map] at hts
    cases hl : (env.mirror.history.filter inCatalogLog).reverse with
    | nil => rw [hl] at hts; cases hts
    | cons c t =>
      rw [hl] at hts
      simp only [List.head?, Option.map_some'] at hts
      have hcmem : c ∈ env.mirror.history.filter inCatalogLog := by
        rw [← List.mem_reverse, hl]; exact List.mem_cons_self c t
      have hpair : ((env.mirror.history.filter inCatalogLog).reverse).Pairwise
          (fun a b => a.committed_date ≤ b.committed_date) := by
        rw [List.pairwise_reverse]
        exact (hsorted.sublist (List.filter_sublist env.mirror.history)).imp
          (fun hab => hab)
      rw [hl, List.pairwise_cons] at hpair
      refine ⟨c, (List.mem_filter.mp hcmem).1, (List.mem_filter.mp hcmem).2,
        (Option.some.inj hts).symm, ?_⟩
      intro c' hc' ht'
      have : c' ∈ (env.mirror.history.filter inCatalogLog).reverse := by
        rw [List.mem_reverse]
        exact List.mem_filter.mpr ⟨hc', ht'⟩
      rw [hl] at this
      rcases List.mem_cons.mp this with rfl | hin
      · exact le_refl _
      · exact hpair.1 c' hin
  · intro hall
    unfold build_app_dict
    rw [if_pos hce, hnone hall]
  · intro app rest benv hbenv hall
    have hb : build_app_dict infos (benv (lower app)) so
        = .error "invalid literal for int()" := by
      rw [hbenv]
      unfold build_app_dict
      rw [if_pos hce, hnone hall]
    simp only [build_result_dict, build_result_aux, hb]

/-- Witness for C10 on the concrete fixtures: `cMirror` has a matching
commit (`"ccc"`, committer date 20), so the first conjunct yields the oldest
matching commit. -/
theorem added_in_catalog_oldest_cinny_witness :
    (∀ ts, added_in_catalog cBuildEnv.mirror = some ts →
      ∃ c ∈ cBuildEnv.mirror.history, inCatalogLog c = true ∧
        ts = c.committed_date ∧
        ∀ c' ∈ cBuildEnv.mirror.history, inCatalogLog c' = true →
          c.committed_date ≤ c'.committed_date)
    ∧ ((∀ c ∈ cBuildEnv.mirror.history, inCatalogLog c = false) →
        build_app_dict cInfos cBuildEnv List.dedup
          = .error "invalid literal for int()")
    ∧ (∀ app rest benv, benv (lower app) = cBuildEnv →
        (∀ c ∈ cBuildEnv.mirror.history, inCatalogLog c = false) →
        build_result_dict ((app, cInfos) :: rest) benv List.dedup
          = build_result_dict rest benv List.dedup) :=
  added_in_catalog_oldest_cinny cBuildEnv cInfos List.dedup (by decide) (by decide)

/-! ## C7: projection of packaging-format-v1 entries -/

/-- C7.  Every entry of the built catalog whose manifest declares a
packaging format strictly below 2 (for example `1.5`) appears in the legacy
(v2) projection with its manifest unmodified, and in the current (v3)
projection with its manifest run through the v1-to-v2 conversion and with
the `install`/`resources` sub-sections removed. -/
theorem packaging_v1_projections (cat : List (String × AppInfos))
    (benv : String → BuildEnv) (so : List String → List String)
    (conv : Manifest → Manifest) (logo : String → Option String)
    (k : String) (d : AppDict)
    (hmem : (k, d) ∈ build_result_dict cat benv so)
    (hpf : pfEff d.manifest < 2) :
    (k, d) ∈ (build_catalog cat benv so conv logo).v2
    ∧ (k, V3Entry.mk { d with manifest := stripIR (conv d.manifest) }
        (logo (lower k))) ∈ (build_catalog cat benv so conv logo).v3 := by
  constructor
  · exact List.mem_filter.mpr ⟨hmem, decide_eq_true hpf⟩
  · refine List.mem_map.mpr ⟨(k, d), hmem, ?_⟩
    show (k, V3Entry.mk { d with manifest := stripIR (if pfEff d.manifest < 2 then conv d.manifest else d.manifest) } (logo (lower k))) = _
    rw [if_pos hpf]

/-- Witness for C7: the fixture entry (`packaging_format = 1.5`) is in the
legacy projection untouched and in the v3 projection converted and
stripped. -/
theorem packaging_v1_projections_witness :
    ("app1", cDict) ∈ (build_catalog [("app1", cInfos)] (fun _ => cBuildEnv)
      List.dedup (fun m => m) (fun _ => none)).v2
    ∧ ("app1", V3Entry.mk { cDict with manifest := stripIR cDict.manifest }
        none) ∈ (build_catalog [("app1", cInfos)] (fun _ => cBuildEnv)
      List.dedup (fun m => m) (fun _ => none)).v3 :=
  packaging_v1_projections [("app1", cInfos)] (fun _ => cBuildEnv) List.dedup
    (fun m => m) (fun _ => none) "app1" cDict (by decide) (by decide)

/-! ## C9: notworking packages are filtered out up front -/

lemma mem_dictInsert {α : Type} (k : String) (v : α) :
    ∀ (l : List (String × α)) z, z ∈ dictInsert k v l → z = (k, v) ∨ z ∈ l := by
  intro l
  induction l with
  | nil =>
    intro z hz
    simp only [dictInsert, List.mem_singleton] at hz
    exact Or.inl hz
  | cons x t ih =>
    intro z hz
    obtain ⟨k', v'⟩ := x
    simp only [dictInsert] at hz
    by_cases hk : k' = k
    · rw [if_pos hk] at hz
      rcases List.mem_cons.mp hz with rfl | hin
      · exact Or.inl rfl
      · exact Or.inr (List.mem_cons_of_mem _ hin)
    · rw [if_neg hk] at hz
      rcases List.mem_cons.mp hz with rfl | hin
      · exact Or.inr (List.mem_cons_self _ _)
      · rcases ih z hin with h | h
        · exact Or.inl h
        · exact Or.inr (List.mem_cons_of_mem _ h)

lemma mem_build_result_aux (benv : String → BuildEnv)
    (so : List String → List String) :
    ∀ (l : List (String × AppInfos)) (acc : List (String × AppDict)) z,
      z ∈ build_result_aux benv so l acc →
      (∃ p ∈ l, build_app_dict p.2 (benv (lower p.1)) so = .ok z.2)
        ∨ z ∈ acc := by
  intro l
  induction l with
  | nil => exact fun acc z hz => Or.inr hz
  | cons x t ih =>
    intro acc z hz
    obtain ⟨app, infos⟩ := x
    simp only [build_result_aux] at hz
    cases hb : build_app_dict infos (benv (lower app)) so with
    | error e =>
      rw [hb] at hz
      rcases ih acc z hz with ⟨p, hp, hok⟩ | hin
      · exact Or.inl ⟨p, List.mem_cons_of_mem _ hp, hok⟩
      · exact Or.inr hin
    | ok d =>
      rw [hb] at hz
      rcases ih _ z hz with ⟨p, hp, hok⟩ | hin
      · exact Or.inl ⟨p, List.mem_cons_of_mem _ hp, hok⟩
      · rcases mem_dictInsert d.id d acc z hin with rfl | hacc
        · exact Or.inl ⟨(app, infos), List.mem_cons_self _ _, hb⟩
        · exact Or.inr hacc

lemma build_app_dict_state (infos : AppInfos) (env : BuildEnv)
    (so : List String → List String) (d : AppDict)
    (h : build_app_dict infos env so = .ok d) : d.state = infos.state := by
  unfold build_app_dict at h
  split at h
  case isFalse => exact Except.noConfusion h
  case isTrue =>
    split at h
    next => exact Except.noConfusion h
    next added hadd =>
      split at h
      next e hres => exact Except.noConfusion h
      next rev hres =>
        split at h
        next hfind => exact Except.noConfusion h
        next c hfind =>
          split at h
          next hman => exact Except.noConfusion h
          next manifest hman =>
            have hd := Except.ok.inj h
            subst hd
            rfl

lemma lookupDepth_ne_five (s : String) (h : s ≠ "notworking") :
    lookupDepth s ≠ 5 := by
  by_cases h1 : s = "inprogress"
  · subst h1; decide
  by_cases h2 : s = "default"
  · subst h2; decide
  have e1 : (s == "notworking") = false := beq_eq_false_iff_ne.mpr h
  have e2 : (s == "inprogress") = false := beq_eq_false_iff_ne.mpr h1
  have e3 : (s == "default") = false := beq_eq_false_iff_ne.mpr h2
  simp [lookupDepth, git_depths, List.lookup, e1, e2, e3]

lemma refresh_all_trace (cenv : String → AppCacheEnv) :
    ∀ (l : List (String × AppInfos)),
      (∀ x ∈ (refresh_all_caches cenv l).clones,
        ∃ p ∈ l, lower p.1 = x.1 ∧ x.2 = lookupDepth p.2.state)
      ∧ (∀ a ∈ (refresh_all_caches cenv l).refreshes,
          ∃ p ∈ l, lower p.1 = a) := by
  intro l
  induction l with
  | nil =>
    constructor <;> intro x hx <;> simp [refresh_all_caches] at hx
  | cons x t ih =>
    obtain ⟨app, infos⟩ := x
    constructor
    · intro z hz
      simp only [refresh_all_caches] at hz
      by_cases hce : (cenv (lower app)).cache_exists = true
      · rw [if_pos hce] at hz
        cases hres : (refresh_cache (cenv (lower app)).st
            (cenv (lower app)).now1 (cenv (lower app)).now2
            (cenv (lower app)).seq).result with
        | ok st =>
          rw [hres] at hz
          rcases ih.1 z hz with ⟨p, hp, hpz⟩
          exact ⟨p, List.mem_cons_of_mem _ hp, hpz⟩
        | error err =>
          rw [hres] at hz
          simp at hz
      · rw [if_neg hce] at hz
        rcases List.mem_cons.mp hz with rfl | hin
        · exact ⟨(app, infos), List.mem_cons_self _ _, rfl, rfl⟩
        · rcases ih.1 z hin with ⟨p, hp, hpz⟩
          exact ⟨p, List.mem_cons_of_mem _ hp, hpz⟩
    · intro a ha
      simp only [refresh_all_caches] at ha
      by_cases hce : (cenv (lower app)).cache_exists = true
      · rw [if_pos hce] at ha
        cases hres : (refresh_cache (cenv (lower app)).st
            (cenv (lower app)).now1 (cenv (lower app)).now2
            (cenv (lower app)).seq).result with
        | ok st =>
          rw [hres] at ha
          rcases List.mem_cons.mp ha with rfl | hin
          · exact ⟨(app, infos), List.mem_cons_self _ _, rfl⟩
          · rcases ih.2 a hin with ⟨p, hp, hpa⟩
            exact ⟨p, List.mem_cons_of_mem _ hp, hpa⟩
        | error err =>
          rw [hres] at ha
          rcases List.mem_cons.mp ha with rfl | hin
          · exact ⟨(app, infos), List.mem_cons_self _ _, rfl⟩
          · simp at hin
      · rw [if_neg hce] at ha
        rcases ih.2 a ha with ⟨p, hp, hpa⟩
        exact ⟨p, List.mem_cons_of_mem _ hp, hpa⟩

/-- C9.  Packages whose registry state is `"notworking"` are removed when
the catalog is loaded, before any processing: every package that survives
loading has another state, every clone recorded by `refresh_all_caches` is
for a surviving package and never uses the depth 5 reserved for the
notworking tier, every refreshed cache is a surviving package's, and every
entry of each of the three output projections carries a state other than
`"notworking"`. -/
theorem notworking_never_processed (raw : List (String × AppInfos))
    (cenv : String → AppCacheEnv) (benv : String → BuildEnv)
    (so : List String → List String) (conv : Manifest → Manifest)
    (logo : String → Option String) :
    (∀ p ∈ loadCatalog raw, p.2.state ≠ "notworking")
    ∧ (∀ x ∈ (refresh_all_caches cenv (loadCatalog raw)).clones,
        x.2 ≠ 5 ∧ ∃ p ∈ loadCatalog raw, lower p.1 = x.1)
    ∧ (∀ a ∈ (refresh_all_caches cenv (loadCatalog raw)).refreshes,
        ∃ p ∈ loadCatalog raw, lower p.1 = a)
    ∧ (∀ q ∈ (build_catalog (loadCatalog raw) benv so conv logo).v2,
        q.2.state ≠ "notworking")
    ∧ (∀ q ∈ (build_catalog (loadCatalog raw) benv so conv logo).v3,
        q.2.dict.state ≠ "notworking")
    ∧ (∀ q ∈ (build_catalog (loadCatalog raw) benv so conv logo).doc,
        q.2.state ≠ "notworking") := by
  have h0 : ∀ p ∈ loadCatalog raw, p.2.state ≠ "notworking" := by
    intro p hp
    have h1 := (List.mem_filter.mp hp).2
    exact of_decide_eq_true h1
  have hres : ∀ z ∈ build_result_dict (loadCatalog raw) benv so,
      z.2.state ≠ "notworking" := by
    intro z hz
    rcases mem_build_result_aux benv so (loadCatalog raw) [] z hz with
      ⟨p, hp, hok⟩ | hin
    · rw [build_app_dict_state _ _ _ _ hok]
      exact h0 p hp
    · cases hin
  refine ⟨h0, ?_, (refresh_all_trace cenv (loadCatalog raw)).2, ?_, ?_, ?_⟩
  · intro x hx
    rcases (refresh_all_trace cenv (loadCatalog raw)).1 x hx with
      ⟨p, hp, hlow, hdep⟩
    refine ⟨?_, p, hp, hlow⟩
    rw [hdep]
    exact lookupDepth_ne_five _ (h0 p hp)
  · intro q hq
    exact hres q (List.mem_of_mem_filter hq)
  · intro q hq
    rcases List.mem_map.mp hq with ⟨z, hz, hfz⟩
    have : q.2.dict.state = z.2.state := by rw [← hfz]
    rw [this]
    exact hres z hz
  · intro q hq
    rcases List.mem_map.mp hq with ⟨z, hz, hfz⟩
    have : q.2.state = z.2.state := by rw [← hfz]; rfl
    rw [this]
    exact hres z (List.mem_of_mem_filter hz)

/-- A notworking registry entry. -/
def nwInfos : AppInfos := { cInfos with state := "notworking" }

/-- Registry with one working and one notworking package. -/
def c9Raw : List (String × AppInfos) := [("App1", cInfos), ("bad", nwInfos)]

/-- Cache env where no mirror exists yet (each package would be cloned). -/
def c9Cenv : String → AppCacheEnv :=
  fun _ => ⟨false, true, ⟨none⟩, 0, 0, .success ⟨none⟩⟩

/-- Witness for C9 at a concrete registry containing a notworking
package. -/
theorem notworking_never_processed_witness :
    (∀ p ∈ loadCatalog c9Raw, p.2.state ≠ "notworking")
    ∧ (∀ x ∈ (refresh_all_caches c9Cenv (loadCatalog c9Raw)).clones,
        x.2 ≠ 5 ∧ ∃ p ∈ loadCatalog c9Raw, lower p.1 = x.1)
    ∧ (∀ a ∈ (refresh_all_caches c9Cenv (loadCatalog c9Raw)).refreshes,
        ∃ p ∈ loadCatalog c9Raw, lower p.1 = a)
    ∧ (∀ q ∈ (build_catalog (loadCatalog c9Raw) (fun _ => cBuildEnv)
        List.dedup (fun m => m) (fun _ => none)).v2,
        q.2.state ≠ "notworking")
    ∧ (∀ q ∈ (build_catalog (loadCatalog c9Raw) (fun _ => cBuildEnv)
        List.dedup (fun m => m) (fun _ => none)).v3,
        q.2.dict.state ≠ "notworking")
    ∧ (∀ q ∈ (build_catalog (loadCatalog c9Raw) (fun _ => cBuildEnv)
        List.dedup (fun m => m) (fun _ => none)).doc,
        q.2.state ≠ "notworking") :=
  notworking_never_processed c9Raw c9Cenv (fun _ => cBuildEnv) List.dedup
    (fun m => m) (fun _ => none)

/-! ## C2: a fatal refresh failure aborts the whole batch -/

/-- Registry with three packages `a`, `b`, `c` (sorted order). -/
def c2Raw : List (String × AppInfos) :=
  [("a", cInfos), ("b", cInfos), ("c", cInfos)]

/-- Cache env whose refresh fails fatally: last fetch 100000 seconds ago
(past both the one-hour throttle and the 24-hour grace window) and the git
sequence raises. -/
def c2FatalEnv : AppCacheEnv :=
  ⟨true, true, ⟨some 0⟩, 100000, 100000, .failure "network down" ⟨some 0⟩⟩

/-- Cache env whose refresh is a fresh no-op. -/
def c2OkEnv : AppCacheEnv := ⟨true, true, ⟨some 0⟩, 100, 100, .success ⟨some 0⟩⟩

/-- Package `b` fails fatally; `a` and `c` are fine. -/
def c2Cenv : String → AppCacheEnv :=
  fun s => if s = "b" then c2FatalEnv else c2OkEnv

/-- Counterexample to C2 as stated: with `b`'s mirror refresh failing
fatally, `refresh_all_caches` stops right after `b` (package `c` is never
refreshed: the refresh trace is `["a", "b"]`) and re-raises, so the whole
run aborts with the error and `a` and `c` appear in no output projection at
all. -/
theorem refresh_fatal_not_isolated :
    refresh_all_caches c2Cenv (loadCatalog c2Raw)
      = ⟨[], ["a", "b"], .error "network down"⟩
    ∧ main c2Raw c2Cenv (fun _ => cBuildEnv) List.dedup (fun m => m)
        (fun _ => none) = .error "network down" := by decide

/-- C2 (amended).  When one package's mirror refresh fails fatally (past the
grace window), the loop in `refresh_all_caches` reports the error and then
re-raises it (`raise e`), so the whole batch aborts: `refresh_all_caches`
propagates the error and `main` produces no output document at all for that
run.  (Only cache-*init* failures, and per-package failures inside
`build_catalog`, are isolated.) -/
theorem refresh_fatal_aborts_batch (raw : List (String × AppInfos))
    (cenv : String → AppCacheEnv)
    (h : ∃ p ∈ loadCatalog raw,
      (cenv (lower p.1)).cache_exists = true ∧
      ∃ err, (refresh_cache (cenv (lower p.1)).st
        (cenv (lower p.1)).now1 (cenv (lower p.1)).now2
        (cenv (lower p.1)).seq).result = .error err) :
    (∃ e, (refresh_all_caches cenv (loadCatalog raw)).outcome = .error e)
    ∧ ∀ benv so conv logo,
        ∃ e, main raw cenv benv so conv logo = .error e := by
  have key : ∀ (l : List (String × AppInfos)),
      (∃ p ∈ l, (cenv (lower p.1)).cache_exists = true ∧
        ∃ err, (refresh_cache (cenv (lower p.1)).st
          (cenv (lower p.1)).now1 (cenv (lower p.1)).now2
          (cenv (lower p.1)).seq).result = .error err) →
      ∃ e, (refresh_all_caches cenv l).outcome = .error e := by
    intro l
    induction l with
    | nil =>
      rintro ⟨p, hp, _⟩
      cases hp
    | cons x t ih =>
      rintro ⟨p, hp, hc, err, herr⟩
      obtain ⟨app, infos⟩ := x
      rcases List.mem_cons.mp hp with heq | hmem
      · subst heq
        dsimp only at hc herr
        simp only [refresh_all_caches]
        rw [if_pos hc, herr]
        exact ⟨err, rfl⟩
      · simp only [refresh_all_caches]
        by_cases hce : (cenv (lower app)).cache_exists = true
        · rw [if_pos hce]
          cases hres : (refresh_cache (cenv (lower app)).st
              (cenv (lower app)).now1 (cenv (lower app)).now2
              (cenv (lower app)).seq).result with
          | ok st => exact ih ⟨p, hmem, hc, err, herr⟩
          | error e2 => exact ⟨e2, rfl⟩
        · rw [if_neg hce]
          exact ih ⟨p, hmem, hc, err, herr⟩
  refine ⟨key _ h, ?_⟩
  intro benv so conv logo
  rcases key _ h with ⟨e, he⟩
  exact ⟨e, by simp [main, he]⟩

/-- Witness for C2's amended theorem at the concrete three-package
registry. -/
theorem refresh_fatal_aborts_batch_witness :
    (∃ e, (refresh_all_caches c2Cenv (loadCatalog c2Raw)).outcome = .error e)
    ∧ ∀ benv so conv logo,
        ∃ e, main c2Raw c2Cenv benv so conv logo = .error e :=
  refresh_fatal_aborts_batch c2Raw c2Cenv
    ⟨("b", cInfos), by decide, by decide, "network down", by decide⟩

/-! ## C6: determinism of the pipeline

The only run-dependent input of `build_catalog` over fixed registry,
taxonomy, mirror and logo inputs is the iteration order of the Python `set`
in `list(set(...))` (CPython randomizes string hashing per process).  We
characterise the admissible orders and compare two runs. -/

/-- An admissible behaviour of `list(set(l))`: any duplicate-free
reordering of `l`'s elements, i.e. a permutation of `l.dedup`. -/
def IsSetOrder (f : List String → List String) : Prop :=
  ∀ l, (f l).Perm l.dedup

/-- Equality of app dicts up to the order of the merged antifeatures
list. -/
def AppDict.eqUpToAF (d1 d2 : AppDict) : Prop :=
  d1.toAppCore = d2.toAppCore ∧ d1.antifeatures.Perm d2.antifeatures

/-- Equality of v3 entries up to antifeatures order. -/
def V3Entry.eqUpToAF (e1 e2 : V3Entry) : Prop :=
  AppDict.eqUpToAF e1.dict e2.dict ∧ e1.logo_hash = e2.logo_hash

/-- Equality of doc entries up to antifeatures order. -/
def DocEntry.eqUpToAF (d1 d2 : DocEntry) : Prop :=
  d1.toDocCore = d2.toDocCore ∧ d1.antifeatures.Perm d2.antifeatures

/-- Same key, related value. -/
def entryRel {α : Type} (R : α → α → Prop) (x y : String × α) : Prop :=
  x.1 = y.1 ∧ R x.2 y.2

/-- The three output documents agree entry by entry, values up to
antifeatures order. -/
def OutputsEquiv (o1 o2 : Outputs) : Prop :=
  List.Forall₂ (entryRel AppDict.eqUpToAF) o1.v2 o2.v2
  ∧ List.Forall₂ (entryRel V3Entry.eqUpToAF) o1.v3 o2.v3
  ∧ List.Forall₂ (entryRel DocEntry.eqUpToAF) o1.doc o2.doc

/-- Relate two `Except` computations: same error, or related results. -/
def exceptRel {ε α : Type} (R : α → α → Prop) :
    Except ε α → Except ε α → Prop
  | .error e, .error e' => e = e'
  | .ok a, .ok b => R a b
  | _, _ => False

lemma exceptRel_error {ε α : Type} (R : α → α → Prop) (e : ε) :
    exceptRel R (Except.error e) (Except.error e) := rfl

lemma exceptRel_ok {ε α : Type} (R : α → α → Prop) {a b : α} (h : R a b) :
    @exceptRel ε α R (Except.ok a) (Except.ok b) := h

lemma build_app_dict_setOrder_rel (infos : AppInfos) (env : BuildEnv)
    (o1 o2 : List String → List String)
    (h1 : IsSetOrder o1) (h2 : IsSetOrder o2) :
    exceptRel AppDict.eqUpToAF (build_app_dict infos env o1)
      (build_app_dict infos env o2) := by
  unfold build_app_dict
  by_cases hce : env.cache_exists = true
  · simp only [if_pos hce]
    split
    · exact exceptRel_error _ _
    · split
      · exact exceptRel_error _ _
      · split
        · exact exceptRel_error _ _
        · split
          · exact exceptRel_error _ _
          · exact exceptRel_ok _ ⟨rfl, (h1 _).trans (h2 _).symm⟩
  · simp only [if_neg hce]
    exact exceptRel_error _ _

lemma forall₂_dictInsert {α : Type} {R : α → α → Prop} (k1 k2 : String)
    (hk12 : k1 = k2) (v1 v2 : α) (hv : R v1 v2) :
    ∀ {l1 l2 : List (String × α)}, List.Forall₂ (entryRel R) l1 l2 →
      List.Forall₂ (entryRel R) (dictInsert k1 v1 l1) (dictInsert k2 v2 l2) := by
  subst hk12
  intro l1 l2 h
  induction h with
  | nil => exact List.Forall₂.cons ⟨rfl, hv⟩ List.Forall₂.nil
  | cons hab htail ih =>
    rename_i a b t1 t2
    obtain ⟨ka, va⟩ := a
    obtain ⟨kb, vb⟩ := b
    obtain ⟨hk, hR⟩ := hab
    dsimp only at hk
    subst hk
    simp only [dictInsert]
    by_cases hkk : ka = k1
    · simp only [if_pos hkk]
      exact List.Forall₂.cons ⟨rfl, hv⟩ htail
    · simp only [if_neg hkk]
      exact List.Forall₂.cons ⟨rfl, hR⟩ ih

lemma forall₂_filter_congr {α : Type} {R : α → α → Prop} {p q : α → Bool}
    (hpq : ∀ x y, R x y → p x = q y) :
    ∀ {l1 l2 : List α}, List.Forall₂ R l1 l2 →
      List.Forall₂ R (l1.filter p) (l2.filter q) := by
  intro l1 l2 h
  induction h with
  | nil => exact List.Forall₂.nil
  | cons hab htail ih =>
    rename_i a b t1 t2
    simp only [List.filter]
    rw [← hpq a b hab]
    cases hp : p a
    · exact ih
    · exact List.Forall₂.cons hab ih

lemma forall₂_map_congr {α β : Type} {R : α → α → Prop} {S : β → β → Prop}
    {f g : α → β} (hfg : ∀ x y, R x y → S (f x) (g y)) :
    ∀ {l1 l2 : List α}, List.Forall₂ R l1 l2 →
      List.Forall₂ S (l1.map f) (l2.map g) := by
  intro l1 l2 h
  induction h with
  | nil => exact List.Forall₂.nil
  | cons hab htail ih => exact List.Forall₂.cons (hfg _ _ hab) ih

lemma build_result_aux_rel (benv : String → BuildEnv)
    (o1 o2 : List String → List String)
    (h1 : IsSetOrder o1) (h2 : IsSetOrder o2) :
    ∀ (l : List (String × AppInfos)) {acc1 acc2},
      List.Forall₂ (entryRel AppDict.eqUpToAF) acc1 acc2 →
      List.Forall₂ (entryRel AppDict.eqUpToAF)
        (build_result_aux benv o1 l acc1) (build_result_aux benv o2 l acc2) := by
  intro l
  induction l with
  | nil => exact fun h => h
  | cons x t ih =>
    intro acc1 acc2 hacc
    obtain ⟨app, infos⟩ := x
    have hrel := build_app_dict_setOrder_rel infos (benv (lower app)) o1 o2 h1 h2
    simp only [build_result_aux]
    cases hb1 : build_app_dict infos (benv (lower app)) o1 with
    | error e1 =>
      cases hb2 : build_app_dict infos (benv (lower app)) o2 with
      | error e2 => exact ih hacc
      | ok d2 =>
        rw [hb1, hb2] at hrel
        exact False.elim hrel
    | ok d1 =>
      cases hb2 : build_app_dict infos (benv (lower app)) o2 with
      | error e2 =>
        rw [hb1, hb2] at hrel
        exact False.elim hrel
      | ok d2 =>
        rw [hb1, hb2] at hrel
        have hR : AppDict.eqUpToAF d1 d2 := hrel
        have hid : d1.id = d2.id := congrArg AppCore.id hR.1
        exact ih (forall₂_dictInsert d1.id d2.id hid d1 d2 hR hacc)

/-- C6 (amended).  Over the same registry, taxonomy, mirror and logo
inputs, two runs of the pipeline produce output documents that are
identical except possibly for the order of each entry's merged
`antifeatures` list, which follows the Python set iteration order of the
run (per-process string-hash randomization); runs whose set order agrees
produce byte-identical documents. -/
theorem build_catalog_deterministic_up_to_set_order
    (cat : List (String × AppInfos)) (benv : String → BuildEnv)
    (conv : Manifest → Manifest) (logo : String → Option String)
    (o1 o2 : List String → List String)
    (h1 : IsSetOrder o1) (h2 : IsSetOrder o2) :
    OutputsEquiv (build_catalog cat benv o1 conv logo)
      (build_catalog cat benv o2 conv logo) := by
  have hres : List.Forall₂ (entryRel AppDict.eqUpToAF)
      (build_result_dict cat benv o1) (build_result_dict cat benv o2) :=
    build_result_aux_rel benv o1 o2 h1 h2 cat List.Forall₂.nil
  refine ⟨?_, ?_, ?_⟩
  · refine forall₂_filter_congr ?_ hres
    intro x y hxy
    rw [congrArg AppCore.manifest hxy.2.1]
  · refine forall₂_map_congr ?_ hres
    intro x y hxy
    obtain ⟨kx, dx⟩ := x
    obtain ⟨ky, dy⟩ := y
    obtain ⟨hk, hcore, hperm⟩ := hxy
    dsimp only at hk hcore hperm ⊢
    subst hk
    obtain ⟨cx, ax⟩ := dx
    obtain ⟨cy, ay⟩ := dy
    have hc : cx = cy := hcore
    subst hc
    exact ⟨rfl, ⟨rfl, hperm⟩, rfl⟩
  · refine forall₂_map_congr ?_ (forall₂_filter_congr ?_ hres)
    · intro x y hxy
      obtain ⟨kx, dx⟩ := x
      obtain ⟨ky, dy⟩ := y
      obtain ⟨hk, hcore, hperm⟩ := hxy
      dsimp only at hk hcore hperm ⊢
      subst hk
      obtain ⟨cx, ax⟩ := dx
      obtain ⟨cy, ay⟩ := dy
      have hc : cx = cy := hcore
      subst hc
      exact ⟨rfl, rfl, hperm⟩
    · intro x y hxy
      rw [congrArg AppCore.state hxy.2.1]

/-- The other admissible set order of the counterexample run: the same
elements, reversed. -/
def revSetOrder : List String → List String :=
  fun l => (List.dedup l).reverse

/-- Counterexample to C6 as stated: two runs over identical inputs whose
set iteration orders differ (both orders are admissible behaviours of
`list(set(...))`) produce different output documents — the fixture
manifest's two antifeatures `x`, `y` come out as `["x", "y"]` in one run
and `["y", "x"]` in the other, and JSON serialization preserves list
order. -/
theorem pipeline_not_bytewise_deterministic :
    IsSetOrder List.dedup ∧ IsSetOrder revSetOrder
    ∧ build_catalog [("app1", cInfos)] (fun _ => cBuildEnv) List.dedup
        (fun m => m) (fun _ => none)
      ≠ build_catalog [("app1", cInfos)] (fun _ => cBuildEnv) revSetOrder
        (fun m => m) (fun _ => none) :=
  ⟨fun _ => List.Perm.refl _, fun _ => List.reverse_perm _, by decide⟩

/-- Witness for C6's amended theorem: the two counterexample runs are
equivalent up to antifeatures order. -/
theorem build_catalog_deterministic_witness :
    OutputsEquiv
      (build_catalog [("app1", cInfos)] (fun _ => cBuildEnv) List.dedup
        (fun m => m) (fun _ => none))
      (build_catalog [("app1", cInfos)] (fun _ => cBuildEnv) revSetOrder
        (fun m => m) (fun _ => none)) :=
  build_catalog_deterministic_up_to_set_order [("app1", cInfos)]
    (fun _ => cBuildEnv) (fun m => m) (fun _ => none) List.dedup revSetOrder
    (fun _ => List.Perm.refl _) (fun _ => List.reverse_perm _)

end ListBuilder
